import Mathlib

/-!
Verification development for the Feather agent orchestration core
(src/core/FeatherAgent.ts).  The file embeds the construction-time
validation, the message store, the system-prompt builder, the tool
invoker and the run loop as executable Lean definitions, and proves
theorems about the specification claims.

External collaborators (the model endpoint, the JSON parser of the
host language, the tools' own bodies) are modelled as data supplied
through an environment record: the endpoint is a function from the
call index to a response, a tool body is a function from the argument
string to an exceptional or ordinary result.  The observability sink
(debug GUI) carries no control flow in the source and is omitted.
-/

namespace Feather

/-- Roles of conversation turns (source: Message.role). -/
inductive Role where
  | system
  | user
  | assistant
  deriving DecidableEq, Repr

/-- One part of a user message's formatted content (source: ContentPart). -/
inductive ContentPart where
  | text (value : String)
  | imageUrl (url : String)
  deriving DecidableEq, Repr

/-- Message content: a raw string (system, assistant, tool results) or the
formatted part list the source builds in addUserMessage. -/
inductive MsgContent where
  | str (s : String)
  | parts (l : List ContentPart)
  deriving DecidableEq, Repr

/-- A conversation turn (source: Message). -/
structure Message where
  role : Role
  content : MsgContent
  deriving DecidableEq, Repr

/-- The value a tool's execute returns.  The source treats it opaquely: it is
serialized for the transcript block, and its result field is read when the
tool is finish_run.  The embedding records exactly those two projections. -/
structure ToolResult where
  resultField : Option String
  serialized : String
  deriving DecidableEq, Repr

/-- A registered tool (source: ToolDefinition).  The execute capability is an
arbitrary function that either returns a result or raises with a message. -/
structure ToolDefinition where
  name : String
  description : String
  parameters : String
  execute : String → Except String ToolResult

/-- One tool-call request inside a model response (source: choice.message.tool_calls
entries; arguments arrive as a raw string from the endpoint). -/
structure ToolCallReq where
  name : String
  args : String
  deriving DecidableEq, Repr

/-- A model-endpoint response to one chat-completion call: a thrown error, an
empty choice list, a choice lacking a message, or a message with content and
tool-call requests (source: the try/catch and choice checks in run). -/
inductive ModelResponse where
  | err (msg : String)
  | empty
  | noMessage
  | msg (content : String) (toolCalls : List ToolCallReq)
  deriving DecidableEq, Repr

/-- An opaque token standing for a value produced by the host JSON parser.
The source never inspects the parsed structured output; it only returns it. -/
structure Json where
  token : String
  deriving DecidableEq, Repr

/-- The external world of one run: the model endpoint (indexed by the call
number, starting at 0), the host JSON parser used for structured output,
and the parser used by finish_run's execute to read final_response out of
its argument string (an exception there propagates as the tool raising). -/
structure Env where
  oracle : Nat → ModelResponse
  jsonParse : String → Option Json
  parseFinal : String → Except String String

/-- An ephemeral parsed tool-call request (source: FunctionCall). -/
structure FunctionCall where
  functionName : String
  functionArgs : String
  deriving DecidableEq, Repr

/-- The caller's structured-output schema is opaque caller data; the embedding
records the three renderings the source derives from it for the prompt. -/
structure StructuredSchema where
  propertiesStr : String
  requiredStr : String
  exampleStr : String
  deriving DecidableEq, Repr

/-- Agent configuration (source: FeatherAgentConfig).  Optional booleans whose
absence the source treats as false are plain Bool; autoExecuteTools keeps the
three-valued form because absence means true there.  Dynamic variables are not
modelled: the configurations under verification supply none, and with none the
template substitution is the identity. -/
structure Config where
  agentId : Option String := none
  systemPrompt : String
  model : Option String := none
  cognition : Bool := false
  tools : List ToolDefinition := []
  structuredOutputSchema : Option StructuredSchema := none
  autoExecuteTools : Option Bool := none
  chainRun : Bool := false
  maxChainIterations : Option Nat := none
  forceTool : Bool := false

/-- Source: const autoExec = this.config.autoExecuteTools !== false. -/
def Config.autoExec (cfg : Config) : Bool :=
  cfg.autoExecuteTools != some false

/-- The constructed agent: its configuration, the effective tool list (with
finish_run auto-added in chain mode) and the message store. -/
structure Agent where
  config : Config
  tools : List ToolDefinition
  messages : List Message

/-- JS string escaping as performed by JSON.stringify on a string value, for
the escape characters the development exercises. -/
def jsEscapeChar (c : Char) : String :=
  if c = '"' then "\\\""
  else if c = '\\' then "\\\\"
  else if c = '\n' then "\\n"
  else if c = '\t' then "\\t"
  else if c = '\r' then "\\r"
  else c.toString

/-- JSON.stringify of a string value. -/
def jsQuote (s : String) : String :=
  "\"" ++ String.join (s.toList.map jsEscapeChar) ++ "\""

/-- JSON.stringify, with indent 2, of a one-field object whose value is a
string (used by the source for the finish_run transcript block). -/
def stringifyObj1 (key val : String) : String :=
  "\x7b\n  \"" ++ key ++ "\": " ++ jsQuote val ++ "\n\x7d"

/-- JSON.stringify, with indent 2, of the functionArgs value: the raw argument
string is quoted; the empty string stands for the defaulted empty object the
source produces via the or-else default on tc.function.arguments. -/
def argsSerialized (args : String) : String :=
  if args = "" then "\x7b\x7d" else jsQuote args

/-- Structural prefix test over character lists (executable helper). -/
def startsWithCh : List Char → List Char → Bool
  | [], _ => true
  | _ :: _, [] => false
  | p :: ps, c :: cs => p == c && startsWithCh ps cs

def hasSubCh (pat : List Char) : List Char → Bool
  | [] => pat.isEmpty
  | c :: rest => startsWithCh pat (c :: rest) || hasSubCh pat rest

/-- Whether pat occurs as a contiguous substring of s (verification-side
helper used to state that a transcript entry omits some information). -/
def hasSubstring (s pat : String) : Bool :=
  hasSubCh pat.toList s.toList

/-- The whitespace characters relevant to the strings this development
handles (a model of the host language's trim character class). -/
def isWsChar (c : Char) : Bool :=
  c == ' ' || c == '\n' || c == '\t' || c == '\r'

/-- Model of the host string trim: leading and trailing whitespace removed. -/
def trimStr (s : String) : String :=
  String.mk (((s.toList.dropWhile isWsChar).reverse.dropWhile isWsChar).reverse)

/-- The characters after the first occurrence of pat, when pat occurs. -/
def afterFirstCh (pat : List Char) : List Char → Option (List Char)
  | [] => if pat.isEmpty then some [] else none
  | c :: rest =>
    if startsWithCh pat (c :: rest) then some ((c :: rest).drop pat.length)
    else afterFirstCh pat rest

/-- The characters before the first occurrence of pat, when pat occurs. -/
def beforeFirstCh (pat : List Char) : List Char → Option (List Char)
  | [] => if pat.isEmpty then some [] else none
  | c :: rest =>
    if startsWithCh pat (c :: rest) then some []
    else (beforeFirstCh pat rest).map (fun l => c :: l)

/-- The synthetic tool ending a chain-run (source: finishRunTool).  Its execute
reads final_response from the argument string through the host JSON parser;
the empty argument string stands for the defaulted empty object, giving an
empty final response. -/
def finishRunTool (env : Env) : ToolDefinition where
  name := "finish_run"
  description := "Call this tool to complete your chain-run and give a FINAL response to the user"
  parameters := "final_response"
  execute := fun args =>
    if args = "" then
      Except.ok { resultField := some "", serialized := stringifyObj1 "result" "" }
    else
      match env.parseFinal args with
      | Except.ok final =>
          Except.ok { resultField := some final, serialized := stringifyObj1 "result" final }
      | Except.error m => Except.error m

/-- Construction of an agent (source: the FeatherAgent constructor).  The
validation checks run in source order; on success the message store holds the
system placeholder and, in chain mode, finish_run is appended to the tools
when not already present. -/
def construct (env : Env) (hasOpenRouterKey : Bool) (cfg : Config) : Except String Agent :=
  if !hasOpenRouterKey then
    Except.error "No OpenRouter API key provided in config or environment!"
  else if cfg.cognition && cfg.structuredOutputSchema.isSome then
    Except.error "Cannot use both cognition and structuredOutputSchema - they are mutually exclusive."
  else if cfg.forceTool && cfg.chainRun then
    Except.error "Cannot enable chainRun when forceTool is true."
  else if cfg.forceTool && cfg.tools.length != 1 then
    Except.error "forceTool requires exactly ONE tool in the tools array."
  else
    let tools := cfg.tools
    let tools :=
      if cfg.chainRun && !(tools.any (fun t => t.name == "finish_run")) then
        tools ++ [finishRunTool env]
      else tools
    Except.ok { config := cfg, tools := tools, messages := [⟨Role.system, MsgContent.str ""⟩] }

/-- The system prompt built before each model call (source: buildSystemPrompt).
With no dynamic variables the template substitution is the identity, then the
chain-running block, the last-iteration warning and the cognition or
structured-output instructions are appended. -/
def buildSystemPrompt (cfg : Config) (iteration : Nat) : String :=
  let base := cfg.systemPrompt
  let withChain :=
    if cfg.chainRun then
      let maxIters := cfg.maxChainIterations.getD 5
      let p := base ++ "\n\n## CHAIN RUNNING ENABLED\n"
        ++ "Chain run is enabled. This means you can run again and again for "
        ++ toString maxIters
        ++ " iterations until completion. This allows you to execute a tool, wait for the result, and decide if you need to execute a different tool.\n"
        ++ "If you are content with your run, then you can end the chain-run by calling the finish_run tool. The information you put in the \x27final_response\x27 parameter is the output given to the user.\n"
      if iteration != 0 && iteration == maxIters then
        p ++ "\n# WARNING\n\n## YOU ARE ON YOUR LAST ITERATION. NO MATTER WHAT, THE SYSTEM WILL NOT ALLOW YOU TO CONTINUE. FINISH YOUR FINAL RESPONSE THIS TURN.\n"
      else p
    else base
  if cfg.cognition then
    withChain ++ "\n\n# OUTPUT FORMAT\n\nYou are capable of cognition. To think, plan, and speak before executing tools, YOU MUST output the following schema:\n<think>\n*your internal thoughts*\n</think>\n<plan>\n*your plan*\n</plan>\n<speak>\n*what you say to the user*\n</speak>"
  else
    match cfg.structuredOutputSchema with
    | some sch =>
        withChain ++ "\n\n# OUTPUT FORMAT\nYou MUST follow this schema:\n\n"
          ++ sch.propertiesStr ++ "\n\nRequired fields: " ++ sch.requiredStr
          ++ "\n\nYour output MUST look exactly like this:\n" ++ sch.exampleStr
    | none => withChain

/-- Appending a user turn (source: addUserMessage): the content is formatted
as a text part followed by one image part per provided url. -/
def addUserMessage (msgs : List Message) (content : String) (images : List String) : List Message :=
  msgs ++ [⟨Role.user, MsgContent.parts
    (ContentPart.text content :: images.map (fun u => ContentPart.imageUrl u))⟩]

/-- Appending an assistant turn (source: addAssistantMessage). -/
def addAssistantMessage (msgs : List Message) (content : String) : List Message :=
  msgs ++ [⟨Role.assistant, MsgContent.str content⟩]

/-- In-place rewrite of the system slot (source: this.messages with index 0
receiving the new content; the role of the slot is untouched). -/
def setSystemContent (msgs : List Message) (p : String) : List Message :=
  match msgs with
  | [] => []
  | m :: rest => { m with content := MsgContent.str p } :: rest

/-- The tool-choice directive sent with a call (source: forcedToolChoice). -/
inductive ToolChoice where
  | auto
  | function (name : String)
  deriving DecidableEq, Repr

/-- The request data of one model-endpoint call, as far as the claims inspect
it: the model identifier, the message snapshot and the tool-choice directive. -/
structure CallParams where
  model : String
  messages : List Message
  toolChoice : ToolChoice
  deriving DecidableEq, Repr

/-- Observable events of a run: a model-endpoint call with its request, and an
invocation of a tool's execute capability. -/
inductive Event where
  | modelCall (params : CallParams)
  | toolExec (name : String) (args : String)
  deriving DecidableEq, Repr

/-- The caller-visible output value: plain text, or the value the host JSON
parser produced in structured-output mode. -/
inductive Output where
  | text (s : String)
  | parsed (j : Json)
  deriving DecidableEq, Repr

/-- The result of one run (source: AgentRunResult). -/
structure RunResult where
  success : Bool
  output : Output
  error : Option String := none
  functionCalls : Option (List FunctionCall) := none
  deriving DecidableEq, Repr

/-- First-match extraction of the speak segment (source: the non-greedy
speak-tag regular expression over the content): the text between the first
opening tag and the first closing tag after it, when both occur. -/
def speakOf (content : String) : Option String :=
  match afterFirstCh "<speak>".toList content.toList with
  | none => none
  | some rest =>
    match beforeFirstCh "</speak>".toList rest with
    | none => none
    | some inner => some (String.mk inner)

/-- The finalize-time output text (source: finalOutput): the trimmed content,
replaced by the trimmed speak segment when cognition is on and one matches. -/
def finalOutputOf (cfg : Config) (content : String) : String :=
  let t := trimStr content
  if cfg.cognition then
    match speakOf content with
    | some sp => trimStr sp
    | none => t
  else t

/-- One settled tool call inside a batch: either a transcript string, or the
sentinel object the finish_run branch returns (source: the values produced
inside the concurrent map over functionCalls). -/
inductive ExecEntry where
  | strRes (s : String)
  | finish (result : String)
  deriving DecidableEq, Repr

/-- The transcript block for a successfully executed non-finish tool (source:
the joined block identifying the tool, its parameters and its result). -/
def toolResultBlock (name args resSerialized : String) : String :=
  "[ SYSTEM ]\n\nAGENT (YOU) EXECUTED THE TOOL " ++ name ++ "\n\nPARAMETERS:\n\n"
    ++ argsSerialized args ++ "\n\nRESULT:\n\n" ++ resSerialized

/-- The transcript block recorded when finish_run finalizes the run (source:
finishRunMessage). -/
def finishRunMessage (finalText : String) : String :=
  "[ SYSTEM ]\n\nAGENT (YOU) EXECUTED THE TOOL finish_run\n\nPARAMETERS:\n\n"
    ++ stringifyObj1 "final_response" finalText ++ "\n\nRESULT:\n\n"
    ++ stringifyObj1 "result" finalText

/-- Settling one requested tool call (source: the async map body): an absent
tool yields the not-found string, a raising execute yields the error string,
finish_run yields the sentinel carrying its trimmed result field, and any
other success yields the transcript block.  The second component records the
execute invocations performed. -/
def execToolCall (tools : List ToolDefinition) (fc : FunctionCall) : ExecEntry × List Event :=
  match tools.find? (fun t => t.name == fc.functionName) with
  | none => (ExecEntry.strRes ("Tool " ++ fc.functionName ++ " not found"), [])
  | some td =>
    match td.execute fc.functionArgs with
    | Except.error m =>
        (ExecEntry.strRes ("Error in tool " ++ fc.functionName ++ ": " ++ m),
         [Event.toolExec fc.functionName fc.functionArgs])
    | Except.ok tr =>
        if fc.functionName == "finish_run" then
          (ExecEntry.finish (trimStr (tr.resultField.getD "")),
           [Event.toolExec fc.functionName fc.functionArgs])
        else
          (ExecEntry.strRes (toolResultBlock fc.functionName fc.functionArgs tr.serialized),
           [Event.toolExec fc.functionName fc.functionArgs])

/-- The settled entries of a whole batch, in request order (the source settles
them concurrently and collects them in this order). -/
def batchEntries (tools : List ToolDefinition) (B : List ToolCallReq) : List ExecEntry :=
  B.map (fun tc => (execToolCall tools ⟨tc.name, tc.args⟩).1)

/-- The user turns appended for a batch's entries (source: the loop pushing
each string result; the finish sentinel is not a string and is skipped). -/
def entryMessages (entries : List ExecEntry) : List Message :=
  entries.filterMap (fun e =>
    match e with
    | ExecEntry.strRes s => some ⟨Role.user, MsgContent.str s⟩
    | ExecEntry.finish _ => none)

/-- Whether an entry is the finish sentinel (source: the predicate of the
find over the settled results). -/
def ExecEntry.isFinish : ExecEntry → Bool
  | ExecEntry.finish _ => true
  | ExecEntry.strRes _ => false

/-- The outcome of one loop iteration: a return from run, or continuation with
the updated store and trace. -/
inductive IterOut where
  | done (r : RunResult) (msgs : List Message) (trace : List Event)
  | next (msgs : List Message) (trace : List Event)

/-- One iteration of the run loop (source: the while body of run).  The system
slot is rewritten, the tool-choice directive computed, the endpoint called;
endpoint-level failures return, otherwise the assistant turn is appended and
the response is interpreted: finalize, return pending calls, or execute the
batch and either finalize through finish_run or append the results and
continue. -/
def toolChoiceOf (cfg : Config) (tools : List ToolDefinition)
    (maxIterations iterationCount : Nat) : ToolChoice :=
  let choice0 : ToolChoice :=
    if cfg.chainRun && iterationCount == maxIterations then ToolChoice.function "finish_run"
    else ToolChoice.auto
  if cfg.forceTool && tools.length == 1 then
    match tools with
    | t :: _ => ToolChoice.function t.name
    | [] => choice0
  else choice0

/-- The request data assembled for the call of one iteration: the system slot
is rewritten with the freshly built prompt and the tool-choice directive is
computed by toolChoiceOf. -/
def callParamsOf (cfg : Config) (tools : List ToolDefinition)
    (maxIterations iterationCount : Nat) (msgs : List Message) : CallParams :=
  { model := cfg.model.getD "openai/gpt-4o"
  , messages := setSystemContent msgs (buildSystemPrompt cfg iterationCount)
  , toolChoice := toolChoiceOf cfg tools maxIterations iterationCount }

def runIteration (cfg : Config) (tools : List ToolDefinition) (env : Env)
    (maxIterations iterationCount : Nat) (msgs0 : List Message) (trace : List Event) : IterOut :=
  let msgs := setSystemContent msgs0 (buildSystemPrompt cfg iterationCount)
  let trace := trace ++ [Event.modelCall (callParamsOf cfg tools maxIterations iterationCount msgs0)]
  match env.oracle (iterationCount - 1) with
  | ModelResponse.err m =>
      let errorMsg := if m = "" then "Unknown LLM error" else m
      IterOut.done { success := false, output := Output.text "", error := some errorMsg } msgs trace
  | ModelResponse.empty =>
      IterOut.done { success := false, output := Output.text "", error := some "No response from model" } msgs trace
  | ModelResponse.noMessage =>
      IterOut.done { success := false, output := Output.text "", error := some "No message in model choice" } msgs trace
  | ModelResponse.msg content toolCalls =>
    let msgs := addAssistantMessage msgs content
    let functionCalls : List FunctionCall := toolCalls.map (fun tc => ⟨tc.name, tc.args⟩)
    if functionCalls.isEmpty then
      if !cfg.chainRun then
        let finalOutput := finalOutputOf cfg content
        match cfg.structuredOutputSchema with
        | some _ =>
          match env.jsonParse finalOutput with
          | some parsed => IterOut.done { success := true, output := Output.parsed parsed } msgs trace
          | none => IterOut.done { success := true, output := Output.text finalOutput } msgs trace
        | none => IterOut.done { success := true, output := Output.text finalOutput } msgs trace
      else
        if iterationCount == maxIterations then
          IterOut.done { success := true, output := Output.text (trimStr content) } msgs trace
        else
          IterOut.next msgs trace
    else if !cfg.autoExec then
      IterOut.done { success := true, output := Output.text (finalOutputOf cfg content),
                     functionCalls := some functionCalls } msgs trace
    else
      let execd := functionCalls.map (execToolCall tools)
      let results := execd.map Prod.fst
      let trace := trace ++ (execd.map Prod.snd).flatten
      match results.find? (fun r => r.isFinish) with
      | some (ExecEntry.finish finalText) =>
          let msgs := msgs ++ [⟨Role.user, MsgContent.str (finishRunMessage finalText)⟩]
          IterOut.done { success := true, output := Output.text finalText } msgs trace
      | _ =>
          IterOut.next (msgs ++ entryMessages results) trace

/-- The bounded while loop of run: fuel counts the iterations still allowed
(the loop guard iterationCount < maxIterations); exhausting it yields the
max-iterations failure. -/
def runLoop (cfg : Config) (tools : List ToolDefinition) (env : Env) (maxIterations : Nat) :
    Nat → Nat → List Message → List Event → RunResult × List Message × List Event
  | 0, _, msgs, trace =>
      ({ success := false, output := Output.text "", error := some "Max iterations reached" }, msgs, trace)
  | fuel+1, iterationCount, msgs, trace =>
    match runIteration cfg tools env maxIterations iterationCount msgs trace with
    | IterOut.done r m t => (r, m, t)
    | IterOut.next m t => runLoop cfg tools env maxIterations fuel (iterationCount+1) m t

/-- The message store after run's optional user-input append (source: the
truthiness test on userInput at the top of run; the empty string is falsy). -/
def runInputMsgs (agent : Agent) (userInput : Option String) (images : List String) : List Message :=
  match userInput with
  | some input =>
      if input = "" then agent.messages else addUserMessage agent.messages input images
  | none => agent.messages

/-- The iteration bound run computes (source: maxIterations in run): the chain
bound, or its 5 default, only under chain mode, overridden to 1 by
force-single-tool mode. -/
def runBound (cfg : Config) : Nat :=
  let chainBound := if cfg.chainRun then cfg.maxChainIterations.getD 5 else 5
  if cfg.forceTool then 1 else chainBound

/-- The run operation (source: run): optional user input is appended when
non-empty, the iteration bound is computed from the configuration, and the
loop starts at iteration 1 with an empty event trace. -/
def run (agent : Agent) (env : Env) (userInput : Option String) (images : List String) :
    RunResult × List Message × List Event :=
  runLoop agent.config agent.tools env (runBound agent.config) (runBound agent.config) 1
    (runInputMsgs agent userInput images) []

/-- The model-endpoint calls recorded in a trace. -/
def modelCalls (trace : List Event) : List CallParams :=
  trace.filterMap (fun e =>
    match e with
    | Event.modelCall p => some p
    | _ => none)

/-- The tool invocations recorded in a trace. -/
def toolInvocations (trace : List Event) : List (String × String) :=
  trace.filterMap (fun e =>
    match e with
    | Event.toolExec n a => some (n, a)
    | _ => none)

/-- The effective iteration bound as the specification states it: 1 under
force-single-tool, the configured chain bound (default 5) under chain mode,
5 otherwise. -/
def effectiveBound (cfg : Config) : Nat :=
  if cfg.forceTool then 1
  else if cfg.chainRun then cfg.maxChainIterations.getD 5
  else 5

/-- The message-store invariant of the specification: the store is nonempty,
its first turn has role system, and no later turn has role system. -/
def SysInv (msgs : List Message) : Prop :=
  msgs.head?.map Message.role = some Role.system ∧ ∀ m ∈ msgs.tail, m.role ≠ Role.system

instance (msgs : List Message) : Decidable (SysInv msgs) := by
  unfold SysInv
  infer_instance

/-- The message store an iteration outcome carries. -/
def IterOut.msgsOf : IterOut → List Message
  | IterOut.done _ m _ => m
  | IterOut.next m _ => m

/-- The event trace an iteration outcome carries. -/
def IterOut.traceOf : IterOut → List Event
  | IterOut.done _ _ t => t
  | IterOut.next _ t => t

/-- States reachable through the public operations: construction, user and
assistant message injection, and run (with an arbitrary environment each
time). -/
inductive Reachable (env : Env) (cfg : Config) : Agent → Prop where
  | base (a : Agent) : construct env true cfg = Except.ok a → Reachable env cfg a
  | user (a : Agent) (content : String) (imgs : List String) :
      Reachable env cfg a →
      Reachable env cfg { a with messages := addUserMessage a.messages content imgs }
  | assistant (a : Agent) (content : String) :
      Reachable env cfg a →
      Reachable env cfg { a with messages := addAssistantMessage a.messages content }
  | runStep (a : Agent) (env' : Env) (ui : Option String) (imgs : List String) :
      Reachable env cfg a →
      Reachable env cfg { a with messages := (run a env' ui imgs).2.1 }

/-! ### Concrete fixtures used by witnesses and counterexamples -/

/-- A tool that always succeeds. -/
def toolT : ToolDefinition where
  name := "t"
  description := "d"
  parameters := "p"
  execute := fun _ => Except.ok { resultField := some "r", serialized := "\"r\"" }

/-- A tool whose execute always raises. -/
def toolBad : ToolDefinition where
  name := "bad"
  description := "d"
  parameters := "p"
  execute := fun _ => Except.error "boom"

/-- A fixture environment: the JSON parser accepts exactly the empty-object
text, and finish_run's argument parser returns the argument itself. -/
def fixEnv (oracle : Nat → ModelResponse) : Env where
  oracle := oracle
  jsonParse := fun s => if s = "\x7b\x7d" then some ⟨"OBJ"⟩ else none
  parseFinal := fun s => Except.ok s

/-- The execute invocations a batch performs, in request order. -/
def batchEvents (tools : List ToolDefinition) (B : List ToolCallReq) : List Event :=
  (((B.map (fun tc => (⟨tc.name, tc.args⟩ : FunctionCall))).map (execToolCall tools)).map
    Prod.snd).flatten

/-- The requested tool exists and its invocation raises. -/
def toolRaises (tools : List ToolDefinition) (tc : ToolCallReq) : Prop :=
  ∃ td m, tools.find? (fun t => t.name == tc.name) = some td
    ∧ td.execute tc.args = Except.error m

/-- The requested tool exists and its invocation returns normally. -/
def toolSucceeds (tools : List ToolDefinition) (tc : ToolCallReq) : Prop :=
  ∃ td tr, tools.find? (fun t => t.name == tc.name) = some td
    ∧ td.execute tc.args = Except.ok tr

def cfgPlain : Config := { systemPrompt := "s" }

def agentPlain : Agent :=
  { config := cfgPlain, tools := [], messages := [⟨Role.system, MsgContent.str ""⟩] }

def envPlain : Env := fixEnv (fun _ => ModelResponse.msg "hi" [])

/-- A force-single-tool agent, as its construction produces it. -/
def agentForce : Agent :=
  { config := { systemPrompt := "s", tools := [toolT], forceTool := true }
  , tools := [toolT], messages := [⟨Role.system, MsgContent.str ""⟩] }

/-- Chain mode with bound 3 and one ordinary tool registered. -/
def cfgChainTool : Config :=
  { systemPrompt := "s", chainRun := true, maxChainIterations := some 3, tools := [toolT] }

/-- An endpoint that requests the ordinary tool on every call. -/
def envChainTool : Env := fixEnv (fun _ => ModelResponse.msg "c" [⟨"t", "x"⟩])

def cfgChain3 : Config :=
  { systemPrompt := "s", chainRun := true, maxChainIterations := some 3 }

def envHello : Env := fixEnv (fun _ => ModelResponse.msg "hello" [])

def agentChain3 : Agent :=
  { config := cfgChain3, tools := [], messages := [⟨Role.system, MsgContent.str ""⟩] }

/-- Structured output together with a one-iteration chain run. -/
def cfgStructChain : Config :=
  { systemPrompt := "s", chainRun := true, maxChainIterations := some 1
  , structuredOutputSchema := some ⟨"p", "r", "e"⟩ }

/-- An endpoint answering parseable JSON text padded with spaces. -/
def envStruct : Env := fixEnv (fun _ => ModelResponse.msg " \x7b\x7d " [])

def cfgStruct : Config :=
  { systemPrompt := "s", structuredOutputSchema := some ⟨"p", "r", "e"⟩ }

def agentStruct : Agent :=
  { config := cfgStruct, tools := [], messages := [⟨Role.system, MsgContent.str ""⟩] }

def cfgToolOnly : Config := { systemPrompt := "s", tools := [toolT] }

/-- An endpoint that first requests an unregistered tool, then finalizes. -/
def envNotFound : Env := fixEnv (fun i =>
  if i = 0 then ModelResponse.msg "c" [⟨"nosuch", "argval"⟩] else ModelResponse.msg "done" [])

/-- Force-single-tool combined with chain mode (rejected by the source). -/
def cfgForceChain : Config :=
  { systemPrompt := "s", tools := [toolT], forceTool := true, chainRun := true }

/-- Manual tool handling with cognition on. -/
def agentPending : Agent :=
  { config := { systemPrompt := "s", tools := [toolT], autoExecuteTools := some false
              , cognition := true }
  , tools := [toolT], messages := [⟨Role.system, MsgContent.str ""⟩] }

def envPending : Env := fixEnv (fun _ => ModelResponse.msg "<speak> hi </speak>" [⟨"t", "z"⟩])

/-- An endpoint requesting an ordinary tool and finish_run in one batch. -/
def envFinish : Env :=
  fixEnv (fun _ => ModelResponse.msg "c" [⟨"t", "a"⟩, ⟨"finish_run", "args"⟩])

/-- A chain-mode agent as constructed: finish_run appended to the tools. -/
def agentFinish : Agent :=
  { config := { systemPrompt := "s", chainRun := true, tools := [toolT] }
  , tools := [toolT, finishRunTool envFinish], messages := [⟨Role.system, MsgContent.str ""⟩] }

def cfgMixed : Config := { systemPrompt := "s", tools := [toolT, toolBad] }

/-- An endpoint requesting one succeeding and one raising tool every turn. -/
def envMixed : Env :=
  fixEnv (fun _ => ModelResponse.msg "c" [⟨"t", "x"⟩, ⟨"bad", "y"⟩])

def agentMixed : Agent :=
  { config := cfgMixed, tools := [toolT, toolBad], messages := [⟨Role.system, MsgContent.str ""⟩] }

/-! ### Infrastructure lemmas about the iteration and the loop -/

theorem execToolCall_snd (tools : List ToolDefinition) (fc : FunctionCall) :
    ∀ e ∈ (execToolCall tools fc).2, ∃ n a, e = Event.toolExec n a := by
  intro e he
  unfold execToolCall at he
  split at he
  · simp at he
  · split at he
    · simp at he
      exact ⟨_, _, he⟩
    · split at he <;>
      · simp at he
        exact ⟨_, _, he⟩

theorem modelCalls_append (a b : List Event) :
    modelCalls (a ++ b) = modelCalls a ++ modelCalls b := by
  simp [modelCalls]

theorem modelCalls_of_toolExecs (l : List Event)
    (h : ∀ e ∈ l, ∃ n a, e = Event.toolExec n a) : modelCalls l = [] := by
  induction l with
  | nil => simp [modelCalls]
  | cons x xs ih =>
    obtain ⟨n, a, hx⟩ := h x (by simp)
    subst hx
    simpa [modelCalls, List.filterMap_cons] using ih (fun e he => h e (by simp [he]))

theorem modelCalls_batch (tools : List ToolDefinition) (fcs : List FunctionCall) :
    modelCalls (((fcs.map (execToolCall tools)).map Prod.snd).flatten) = [] := by
  apply modelCalls_of_toolExecs
  intro e he
  simp only [List.mem_flatten, List.mem_map] at he
  obtain ⟨l, ⟨p, ⟨fc, hfc, hp⟩, hl⟩, hel⟩ := he
  subst hp hl
  exact execToolCall_snd tools fc e hel

theorem runIteration_trace (cfg : Config) (tools : List ToolDefinition) (env : Env)
    (maxI iter : Nat) (msgs : List Message) (trace : List Event) :
    ∃ toolEvents,
      (runIteration cfg tools env maxI iter msgs trace).traceOf
        = trace ++ Event.modelCall (callParamsOf cfg tools maxI iter msgs) :: toolEvents
      ∧ modelCalls toolEvents = [] := by
  unfold runIteration
  cases hor : env.oracle (iter - 1)
  case err m => exact ⟨[], by simp [IterOut.traceOf], by simp [modelCalls]⟩
  case empty => exact ⟨[], by simp [IterOut.traceOf], by simp [modelCalls]⟩
  case noMessage => exact ⟨[], by simp [IterOut.traceOf], by simp [modelCalls]⟩
  case msg content toolCalls =>
    dsimp only
    repeat' split
    all_goals
      first
      | (refine ⟨[], ?_, ?_⟩ <;> (simp [IterOut.traceOf, modelCalls]; done))
      | (refine ⟨_, ?_, modelCalls_batch tools
             (toolCalls.map (fun tc => (⟨tc.name, tc.args⟩ : FunctionCall)))⟩
         simp only [IterOut.traceOf, List.append_assoc, List.singleton_append])

theorem entryMessages_role (entries : List ExecEntry) :
    ∀ m ∈ entryMessages entries, m.role = Role.user := by
  intro m hm
  simp only [entryMessages, List.mem_filterMap] at hm
  obtain ⟨e, _, he⟩ := hm
  cases e with
  | strRes s =>
      simp at he
      subst he
      rfl
  | finish r => simp at he

theorem runIteration_msgs (cfg : Config) (tools : List ToolDefinition) (env : Env)
    (maxI iter : Nat) (msgs : List Message) (trace : List Event) :
    ∃ appended,
      (runIteration cfg tools env maxI iter msgs trace).msgsOf
        = setSystemContent msgs (buildSystemPrompt cfg iter) ++ appended
      ∧ ∀ m ∈ appended, m.role ≠ Role.system := by
  unfold runIteration
  cases hor : env.oracle (iter - 1)
  case err m => exact ⟨[], by simp [IterOut.msgsOf], by simp⟩
  case empty => exact ⟨[], by simp [IterOut.msgsOf], by simp⟩
  case noMessage => exact ⟨[], by simp [IterOut.msgsOf], by simp⟩
  case msg content toolCalls =>
    dsimp only
    repeat' split
    all_goals
      first
      | (refine ⟨[⟨Role.assistant, MsgContent.str content⟩], ?_, ?_⟩ <;>
          (simp [IterOut.msgsOf, addAssistantMessage]; done))
      | (rename_i ft heq
         refine ⟨[⟨Role.assistant, MsgContent.str content⟩,
                  ⟨Role.user, MsgContent.str (finishRunMessage ft)⟩], ?_, ?_⟩ <;>
          (simp [IterOut.msgsOf, addAssistantMessage]; done))
      | (refine ⟨⟨Role.assistant, MsgContent.str content⟩ ::
            entryMessages (((toolCalls.map (fun tc => (⟨tc.name, tc.args⟩ : FunctionCall))).map
              (execToolCall tools)).map Prod.fst), ?_, ?_⟩
         · simp [IterOut.msgsOf, addAssistantMessage]
         · intro m hm
           rcases List.mem_cons.mp hm with h | h
           · subst h
             simp
           · have := entryMessages_role _ m h
             simp [this])

theorem runLoop_succ_done (cfg : Config) (tools : List ToolDefinition) (env : Env)
    (maxI n iter : Nat) (msgs : List Message) (trace : List Event)
    (r : RunResult) (m : List Message) (t : List Event)
    (h : runIteration cfg tools env maxI iter msgs trace = IterOut.done r m t) :
    runLoop cfg tools env maxI (n+1) iter msgs trace = (r, m, t) := by
  rw [runLoop, h]

theorem runLoop_succ_next (cfg : Config) (tools : List ToolDefinition) (env : Env)
    (maxI n iter : Nat) (msgs : List Message) (trace : List Event)
    (m : List Message) (t : List Event)
    (h : runIteration cfg tools env maxI iter msgs trace = IterOut.next m t) :
    runLoop cfg tools env maxI (n+1) iter msgs trace
      = runLoop cfg tools env maxI n (iter+1) m t := by
  rw [runLoop, h]

theorem runIteration_modelCalls (cfg : Config) (tools : List ToolDefinition) (env : Env)
    (maxI iter : Nat) (msgs : List Message) (trace : List Event) :
    modelCalls ((runIteration cfg tools env maxI iter msgs trace).traceOf)
      = modelCalls trace ++ [callParamsOf cfg tools maxI iter msgs] := by
  obtain ⟨te, h1, h2⟩ := runIteration_trace cfg tools env maxI iter msgs trace
  rw [h1, modelCalls_append]
  have hcons : modelCalls (Event.modelCall (callParamsOf cfg tools maxI iter msgs) :: te)
      = callParamsOf cfg tools maxI iter msgs :: modelCalls te := by
    simp [modelCalls, List.filterMap_cons]
  rw [hcons, h2]

theorem runLoop_modelCalls_le (cfg : Config) (tools : List ToolDefinition) (env : Env)
    (maxI : Nat) : ∀ (fuel iter : Nat) (msgs : List Message) (trace : List Event),
    (modelCalls (runLoop cfg tools env maxI fuel iter msgs trace).2.2).length
      ≤ (modelCalls trace).length + fuel := by
  intro fuel
  induction fuel with
  | zero =>
    intro iter msgs trace
    simp [runLoop]
  | succ n ih =>
    intro iter msgs trace
    cases hi : runIteration cfg tools env maxI iter msgs trace with
    | done r m t =>
      rw [runLoop_succ_done cfg tools env maxI n iter msgs trace r m t hi]
      have h := runIteration_modelCalls cfg tools env maxI iter msgs trace
      rw [hi] at h
      simp only [IterOut.traceOf] at h
      simp [h]
      try omega
    | next m t =>
      rw [runLoop_succ_next cfg tools env maxI n iter msgs trace m t hi]
      have h := runIteration_modelCalls cfg tools env maxI iter msgs trace
      rw [hi] at h
      simp only [IterOut.traceOf] at h
      have hl := ih (iter+1) m t
      rw [h] at hl
      simp at hl
      omega

theorem runLoop_modelCalls_mono (cfg : Config) (tools : List ToolDefinition) (env : Env)
    (maxI : Nat) : ∀ (fuel iter : Nat) (msgs : List Message) (trace : List Event),
    (modelCalls trace).length
      ≤ (modelCalls (runLoop cfg tools env maxI fuel iter msgs trace).2.2).length := by
  intro fuel
  induction fuel with
  | zero =>
    intro iter msgs trace
    simp [runLoop]
  | succ n ih =>
    intro iter msgs trace
    cases hi : runIteration cfg tools env maxI iter msgs trace with
    | done r m t =>
      rw [runLoop_succ_done cfg tools env maxI n iter msgs trace r m t hi]
      have h := runIteration_modelCalls cfg tools env maxI iter msgs trace
      rw [hi] at h
      simp only [IterOut.traceOf] at h
      simp [h]
    | next m t =>
      rw [runLoop_succ_next cfg tools env maxI n iter msgs trace m t hi]
      have h := runIteration_modelCalls cfg tools env maxI iter msgs trace
      rw [hi] at h
      simp only [IterOut.traceOf] at h
      have hl := ih (iter+1) m t
      rw [h] at hl
      simp at hl
      omega

theorem runLoop_modelCalls_ge_one (cfg : Config) (tools : List ToolDefinition) (env : Env)
    (maxI : Nat) (fuel iter : Nat) (msgs : List Message) (trace : List Event) (hf : 0 < fuel) :
    (modelCalls trace).length + 1
      ≤ (modelCalls (runLoop cfg tools env maxI fuel iter msgs trace).2.2).length := by
  cases fuel with
  | zero => omega
  | succ n =>
    cases hi : runIteration cfg tools env maxI iter msgs trace with
    | done r m t =>
      rw [runLoop_succ_done cfg tools env maxI n iter msgs trace r m t hi]
      have h := runIteration_modelCalls cfg tools env maxI iter msgs trace
      rw [hi] at h
      simp only [IterOut.traceOf] at h
      simp [h]
    | next m t =>
      rw [runLoop_succ_next cfg tools env maxI n iter msgs trace m t hi]
      have h := runIteration_modelCalls cfg tools env maxI iter msgs trace
      rw [hi] at h
      simp only [IterOut.traceOf] at h
      have hl := runLoop_modelCalls_mono cfg tools env maxI n (iter+1) m t
      rw [h] at hl
      simp at hl
      omega

theorem setSystemContent_cons (m : Message) (rest : List Message) (p : String) :
    setSystemContent (m :: rest) p = Message.mk m.role (MsgContent.str p) :: rest := rfl

theorem runLoop_msgs (cfg : Config) (tools : List ToolDefinition) (env : Env) (maxI : Nat) :
    ∀ (fuel iter : Nat) (m : Message) (rest : List Message) (trace : List Event),
    ∃ c app,
      (runLoop cfg tools env maxI fuel iter (m :: rest) trace).2.1
        = Message.mk m.role c :: (rest ++ app)
      ∧ ∀ x ∈ app, x.role ≠ Role.system := by
  intro fuel
  induction fuel with
  | zero =>
    intro iter m rest trace
    exact ⟨m.content, [], by simp [runLoop], by simp⟩
  | succ n ih =>
    intro iter m rest trace
    cases hi : runIteration cfg tools env maxI iter (m :: rest) trace with
    | done r m' t =>
      rw [runLoop_succ_done cfg tools env maxI n iter (m :: rest) trace r m' t hi]
      obtain ⟨app, hmsg, hroles⟩ := runIteration_msgs cfg tools env maxI iter (m :: rest) trace
      rw [hi] at hmsg
      simp only [IterOut.msgsOf] at hmsg
      rw [setSystemContent_cons] at hmsg
      refine ⟨MsgContent.str (buildSystemPrompt cfg iter), app, ?_, hroles⟩
      simpa using hmsg
    | next m' t =>
      rw [runLoop_succ_next cfg tools env maxI n iter (m :: rest) trace m' t hi]
      obtain ⟨app1, hmsg, hroles1⟩ := runIteration_msgs cfg tools env maxI iter (m :: rest) trace
      rw [hi] at hmsg
      simp only [IterOut.msgsOf] at hmsg
      rw [setSystemContent_cons] at hmsg
      have hm' : m' = Message.mk m.role (MsgContent.str (buildSystemPrompt cfg iter)) :: (rest ++ app1) := by
        simpa using hmsg
      subst hm'
      obtain ⟨c, app2, hout, hroles2⟩ :=
        ih (iter+1) (Message.mk m.role (MsgContent.str (buildSystemPrompt cfg iter))) (rest ++ app1) t
      refine ⟨c, app1 ++ app2, ?_, ?_⟩
      · rw [hout]
        simp
      · intro x hx
        rcases List.mem_append.mp hx with h | h
        · exact hroles1 x h
        · exact hroles2 x h

theorem runLoop_snapshots (cfg : Config) (tools : List ToolDefinition) (env : Env) (maxI : Nat) :
    ∀ (fuel iter : Nat) (m : Message) (rest : List Message) (trace : List Event),
    m.role = Role.system → (∀ x ∈ rest, x.role ≠ Role.system) →
    ∀ p ∈ modelCalls (runLoop cfg tools env maxI fuel iter (m :: rest) trace).2.2,
      p ∈ modelCalls trace ∨
      ∃ i hd tl, p.messages = hd :: tl ∧ hd.role = Role.system
        ∧ hd.content = MsgContent.str (buildSystemPrompt cfg i)
        ∧ ∀ x ∈ tl, x.role ≠ Role.system := by
  intro fuel
  induction fuel with
  | zero =>
    intro iter m rest trace _ _ p hp
    simp [runLoop] at hp
    exact Or.inl hp
  | succ n ih =>
    intro iter m rest trace hm hrest p hp
    cases hi : runIteration cfg tools env maxI iter (m :: rest) trace with
    | done r m' t =>
      rw [runLoop_succ_done cfg tools env maxI n iter (m :: rest) trace r m' t hi] at hp
      have h := runIteration_modelCalls cfg tools env maxI iter (m :: rest) trace
      rw [hi] at h
      simp only [IterOut.traceOf] at h
      simp only [h, List.mem_append, List.mem_singleton] at hp
      rcases hp with hp | hp
      · exact Or.inl hp
      · subst hp
        refine Or.inr ⟨iter, Message.mk m.role (MsgContent.str (buildSystemPrompt cfg iter)), rest, ?_, hm, rfl, hrest⟩
        simp [callParamsOf, setSystemContent_cons]
    | next m' t =>
      rw [runLoop_succ_next cfg tools env maxI n iter (m :: rest) trace m' t hi] at hp
      obtain ⟨app1, hmsg, hroles1⟩ := runIteration_msgs cfg tools env maxI iter (m :: rest) trace
      rw [hi] at hmsg
      simp only [IterOut.msgsOf] at hmsg
      rw [setSystemContent_cons] at hmsg
      have hm' : m' = Message.mk m.role (MsgContent.str (buildSystemPrompt cfg iter)) :: (rest ++ app1) := by
        simpa using hmsg
      subst hm'
      have hrest' : ∀ x ∈ rest ++ app1, x.role ≠ Role.system := by
        intro x hx
        rcases List.mem_append.mp hx with h | h
        · exact hrest x h
        · exact hroles1 x h
      have := ih (iter+1) (Message.mk m.role (MsgContent.str (buildSystemPrompt cfg iter)))
        (rest ++ app1) t hm hrest' p hp
      rcases this with hin | hr
      · -- p came from t, which is trace plus this iteration's events
        have h := runIteration_modelCalls cfg tools env maxI iter (m :: rest) trace
        rw [hi] at h
        simp only [IterOut.traceOf] at h
        rw [h] at hin
        rcases List.mem_append.mp hin with hin | hin
        · exact Or.inl hin
        · simp only [List.mem_singleton] at hin
          subst hin
          refine Or.inr ⟨iter, Message.mk m.role (MsgContent.str (buildSystemPrompt cfg iter)), rest, ?_, hm, rfl, hrest⟩
          simp [callParamsOf, setSystemContent_cons]
      · exact Or.inr hr

theorem runIteration_noCalls_next (cfg : Config) (tools : List ToolDefinition) (env : Env)
    (maxI iter : Nat) (msgs : List Message) (trace : List Event) (c : String)
    (hchain : cfg.chainRun = true) (hlast : (iter == maxI) = false)
    (hor : env.oracle (iter - 1) = ModelResponse.msg c []) :
    runIteration cfg tools env maxI iter msgs trace
      = IterOut.next (addAssistantMessage (setSystemContent msgs (buildSystemPrompt cfg iter)) c)
          (trace ++ [Event.modelCall (callParamsOf cfg tools maxI iter msgs)]) := by
  unfold runIteration
  rw [hor]
  simp [hchain, hlast]

theorem runIteration_noCalls_last (cfg : Config) (tools : List ToolDefinition) (env : Env)
    (maxI iter : Nat) (msgs : List Message) (trace : List Event) (c : String)
    (hchain : cfg.chainRun = true) (hlast : (iter == maxI) = true)
    (hor : env.oracle (iter - 1) = ModelResponse.msg c []) :
    runIteration cfg tools env maxI iter msgs trace
      = IterOut.done { success := true, output := Output.text (trimStr c) }
          (addAssistantMessage (setSystemContent msgs (buildSystemPrompt cfg iter)) c)
          (trace ++ [Event.modelCall (callParamsOf cfg tools maxI iter msgs)]) := by
  unfold runIteration
  rw [hor]
  simp [hchain, hlast]

theorem runIteration_finalize_plain (cfg : Config) (tools : List ToolDefinition) (env : Env)
    (maxI iter : Nat) (msgs : List Message) (trace : List Event) (c : String)
    (hchain : cfg.chainRun = false) (hsch : cfg.structuredOutputSchema = none)
    (hor : env.oracle (iter - 1) = ModelResponse.msg c []) :
    runIteration cfg tools env maxI iter msgs trace
      = IterOut.done { success := true, output := Output.text (finalOutputOf cfg c) }
          (addAssistantMessage (setSystemContent msgs (buildSystemPrompt cfg iter)) c)
          (trace ++ [Event.modelCall (callParamsOf cfg tools maxI iter msgs)]) := by
  unfold runIteration
  rw [hor]
  simp [hchain, hsch]

theorem runIteration_finalize_parsed (cfg : Config) (tools : List ToolDefinition) (env : Env)
    (maxI iter : Nat) (msgs : List Message) (trace : List Event) (c : String)
    (sch : StructuredSchema) (j : Json)
    (hchain : cfg.chainRun = false) (hsch : cfg.structuredOutputSchema = some sch)
    (hjson : env.jsonParse (finalOutputOf cfg c) = some j)
    (hor : env.oracle (iter - 1) = ModelResponse.msg c []) :
    runIteration cfg tools env maxI iter msgs trace
      = IterOut.done { success := true, output := Output.parsed j }
          (addAssistantMessage (setSystemContent msgs (buildSystemPrompt cfg iter)) c)
          (trace ++ [Event.modelCall (callParamsOf cfg tools maxI iter msgs)]) := by
  unfold runIteration
  rw [hor]
  simp [hchain, hsch, hjson]

theorem runIteration_finalize_fallback (cfg : Config) (tools : List ToolDefinition) (env : Env)
    (maxI iter : Nat) (msgs : List Message) (trace : List Event) (c : String)
    (sch : StructuredSchema)
    (hchain : cfg.chainRun = false) (hsch : cfg.structuredOutputSchema = some sch)
    (hjson : env.jsonParse (finalOutputOf cfg c) = none)
    (hor : env.oracle (iter - 1) = ModelResponse.msg c []) :
    runIteration cfg tools env maxI iter msgs trace
      = IterOut.done { success := true, output := Output.text (finalOutputOf cfg c) }
          (addAssistantMessage (setSystemContent msgs (buildSystemPrompt cfg iter)) c)
          (trace ++ [Event.modelCall (callParamsOf cfg tools maxI iter msgs)]) := by
  unfold runIteration
  rw [hor]
  simp [hchain, hsch, hjson]

theorem runIteration_pending (cfg : Config) (tools : List ToolDefinition) (env : Env)
    (maxI iter : Nat) (msgs : List Message) (trace : List Event) (c : String)
    (B : List ToolCallReq)
    (hauto : cfg.autoExec = false) (hne : B ≠ [])
    (hor : env.oracle (iter - 1) = ModelResponse.msg c B) :
    runIteration cfg tools env maxI iter msgs trace
      = IterOut.done { success := true, output := Output.text (finalOutputOf cfg c)
                     , functionCalls := some (B.map (fun tc => ⟨tc.name, tc.args⟩)) }
          (addAssistantMessage (setSystemContent msgs (buildSystemPrompt cfg iter)) c)
          (trace ++ [Event.modelCall (callParamsOf cfg tools maxI iter msgs)]) := by
  unfold runIteration
  rw [hor]
  simp [hauto, hne]


theorem results_eq_batchEntries (tools : List ToolDefinition) (B : List ToolCallReq) :
    ((B.map (fun tc => (⟨tc.name, tc.args⟩ : FunctionCall))).map (execToolCall tools)).map
      Prod.fst = batchEntries tools B := by
  simp [batchEntries, List.map_map]

theorem execToolCall_not_finish (tools : List ToolDefinition) (fc : FunctionCall)
    (h : fc.functionName ≠ "finish_run") :
    (execToolCall tools fc).1.isFinish = false := by
  unfold execToolCall
  split
  · rfl
  · split
    · rfl
    · split
      · rename_i hn
        simp at hn
        exact absurd hn h
      · rfl

theorem find_isFinish_none (tools : List ToolDefinition) (B : List ToolCallReq)
    (h : ∀ tc ∈ B, tc.name ≠ "finish_run") :
    (batchEntries tools B).find? (fun r => r.isFinish) = none := by
  rw [List.find?_eq_none]
  intro e he
  simp only [batchEntries, List.mem_map] at he
  obtain ⟨tc, htc, he⟩ := he
  subst he
  simp [execToolCall_not_finish tools ⟨tc.name, tc.args⟩ (h tc htc)]

theorem runIteration_batch_next (cfg : Config) (tools : List ToolDefinition) (env : Env)
    (maxI iter : Nat) (msgs : List Message) (trace : List Event) (c : String)
    (B : List ToolCallReq)
    (hauto : cfg.autoExec = true) (hne : B ≠ [])
    (hfind : (batchEntries tools B).find? (fun r => r.isFinish) = none)
    (hor : env.oracle (iter - 1) = ModelResponse.msg c B) :
    runIteration cfg tools env maxI iter msgs trace
      = IterOut.next
          (addAssistantMessage (setSystemContent msgs (buildSystemPrompt cfg iter)) c
            ++ entryMessages (batchEntries tools B))
          (trace ++ Event.modelCall (callParamsOf cfg tools maxI iter msgs)
            :: batchEvents tools B) := by
  unfold runIteration
  rw [hor]
  have hres := results_eq_batchEntries tools B
  simp only [hauto, hne, Bool.not_true, Bool.not_false, if_false, if_true]
  simp only [hres, hfind]
  simp [batchEvents, hne]

theorem runIteration_batch_finish (cfg : Config) (tools : List ToolDefinition) (env : Env)
    (maxI iter : Nat) (msgs : List Message) (trace : List Event) (c : String)
    (B : List ToolCallReq) (ft : String)
    (hauto : cfg.autoExec = true) (hne : B ≠ [])
    (hfind : (batchEntries tools B).find? (fun r => r.isFinish) = some (ExecEntry.finish ft))
    (hor : env.oracle (iter - 1) = ModelResponse.msg c B) :
    runIteration cfg tools env maxI iter msgs trace
      = IterOut.done { success := true, output := Output.text ft }
          (addAssistantMessage (setSystemContent msgs (buildSystemPrompt cfg iter)) c
            ++ [⟨Role.user, MsgContent.str (finishRunMessage ft)⟩])
          (trace ++ Event.modelCall (callParamsOf cfg tools maxI iter msgs)
            :: batchEvents tools B) := by
  unfold runIteration
  rw [hor]
  have hres := results_eq_batchEntries tools B
  simp only [hres, hfind, hauto, hne]
  simp [batchEvents, hne]

/-! ### Claim theorems -/

/-- C1 (confirmed): one invocation of run issues at most the effective
iteration bound of model-endpoint calls — 5 when neither chainRun nor
forceTool is set (even if maxChainIterations is configured, effectiveBound
ignores it then), maxChainIterations (defaulting to 5) when chainRun is
true — and exactly 1 when forceTool is true. -/
theorem claim_c1 (agent : Agent) (env : Env) (ui : Option String) (imgs : List String) :
    (modelCalls (run agent env ui imgs).2.2).length ≤ effectiveBound agent.config
    ∧ (agent.config.forceTool = true →
        (modelCalls (run agent env ui imgs).2.2).length = 1) := by
  have hbe : runBound agent.config = effectiveBound agent.config := by
    unfold runBound effectiveBound
    by_cases h : agent.config.forceTool <;> simp [h]
  have hle := runLoop_modelCalls_le agent.config agent.tools env (runBound agent.config)
    (runBound agent.config) 1 (runInputMsgs agent ui imgs) []
  have h0 : (modelCalls ([] : List Event)).length = 0 := rfl
  constructor
  · unfold run
    rw [← hbe]
    omega
  · intro hf
    have hb1 : runBound agent.config = 1 := by
      unfold runBound
      simp [hf]
    have hge := runLoop_modelCalls_ge_one agent.config agent.tools env (runBound agent.config)
      (runBound agent.config) 1 (runInputMsgs agent ui imgs) [] (by rw [hb1]; omega)
    unfold run
    rw [hb1] at hle hge ⊢
    omega

/-- Witness for C1: the force-single-tool agent makes exactly one call. -/
theorem claim_c1_witness :
    (modelCalls (run agentForce envPlain none []).2.2).length = 1 :=
  (claim_c1 agentForce envPlain none []).2 rfl

/-- Counterexample to C2 as stated: chain mode with bound 3 and a model that
keeps requesting an ordinary tool (never finish_run) gets exactly 3 calls and
the finish_run tool-choice directive on the 3rd, but run returns a
max-iterations failure, not success with the 3rd response's content. -/
theorem claim_c2_counterexample :
    (construct envChainTool true cfgChainTool).map
        (fun a => (modelCalls (run a envChainTool none []).2.2).length) = Except.ok 3
    ∧ (construct envChainTool true cfgChainTool).map
        (fun a => ((modelCalls (run a envChainTool none []).2.2)[2]?).map CallParams.toolChoice)
        = Except.ok (some (ToolChoice.function "finish_run"))
    ∧ (construct envChainTool true cfgChainTool).map (fun a => (run a envChainTool none []).1)
        = Except.ok { success := false, output := Output.text ""
                    , error := some "Max iterations reached", functionCalls := none } := by
  refine ⟨?_, ?_, ?_⟩ <;> rfl

/-- C2 (amended): with chain mode, maxChainIterations = 3 and responses that
are well-formed and carry no tool-call requests, run issues exactly 3 model
calls, the 3rd call's tool-choice directive names finish_run, and the run
returns success with the 3rd response's trimmed raw content. -/
theorem claim_c2 (agent : Agent) (env : Env) (ui : Option String) (imgs : List String)
    (c : Nat → String)
    (hchain : agent.config.chainRun = true)
    (hmax : agent.config.maxChainIterations = some 3)
    (hforce : agent.config.forceTool = false)
    (hor : ∀ i, i < 3 → env.oracle i = ModelResponse.msg (c i) []) :
    (modelCalls (run agent env ui imgs).2.2).length = 3
    ∧ ((modelCalls (run agent env ui imgs).2.2)[2]?).map CallParams.toolChoice
        = some (ToolChoice.function "finish_run")
    ∧ (run agent env ui imgs).1
        = { success := true, output := Output.text (trimStr (c 2)) } := by
  have hb : runBound agent.config = 3 := by
    unfold runBound
    simp [hchain, hmax, hforce]
  unfold run
  rw [hb]
  rw [runLoop_succ_next agent.config agent.tools env 3 2 1 _ _ _ _
        (runIteration_noCalls_next agent.config agent.tools env 3 1 _ _ _ hchain (by decide)
          (hor 0 (by omega)))]
  rw [runLoop_succ_next agent.config agent.tools env 3 1 2 _ _ _ _
        (runIteration_noCalls_next agent.config agent.tools env 3 2 _ _ _ hchain (by decide)
          (hor 1 (by omega)))]
  rw [runLoop_succ_done agent.config agent.tools env 3 0 3 _ _ _ _ _
        (runIteration_noCalls_last agent.config agent.tools env 3 3 _ _ _ hchain (by decide)
          (hor 2 (by omega)))]
  refine ⟨?_, ?_, rfl⟩
  · simp [modelCalls]
  · simp [modelCalls, callParamsOf, toolChoiceOf, hforce, hchain]

/-- Witness for C2 at a concrete chain-mode agent and endpoint. -/
theorem claim_c2_witness :
    (modelCalls (run agentChain3 envHello none []).2.2).length = 3
    ∧ ((modelCalls (run agentChain3 envHello none []).2.2)[2]?).map CallParams.toolChoice
        = some (ToolChoice.function "finish_run")
    ∧ (run agentChain3 envHello none []).1
        = { success := true, output := Output.text (trimStr "hello") } :=
  claim_c2 agentChain3 envHello none [] (fun _ => "hello") rfl rfl rfl (fun _ _ => rfl)

theorem execToolCall_fst_str (tools : List ToolDefinition) (fc : FunctionCall)
    (h : fc.functionName ≠ "finish_run") :
    (execToolCall tools fc).1
      = ExecEntry.strRes
          (match tools.find? (fun t => t.name == fc.functionName) with
           | none => "Tool " ++ fc.functionName ++ " not found"
           | some td =>
             match td.execute fc.functionArgs with
             | Except.error m => "Error in tool " ++ fc.functionName ++ ": " ++ m
             | Except.ok tr => toolResultBlock fc.functionName fc.functionArgs tr.serialized) := by
  unfold execToolCall
  split
  · rfl
  · rename_i td hfound
    split
    · rfl
    · split
      · rename_i hn
        simp at hn
        exact absurd hn h
      · rfl

theorem entryMessages_of_no_finish (tools : List ToolDefinition) (B : List ToolCallReq)
    (hnf : ∀ tc ∈ B, tc.name ≠ "finish_run") :
    entryMessages (batchEntries tools B)
      = B.map (fun tc => ⟨Role.user, MsgContent.str
          (match tools.find? (fun t => t.name == tc.name) with
           | none => "Tool " ++ tc.name ++ " not found"
           | some td =>
             match td.execute tc.args with
             | Except.error m => "Error in tool " ++ tc.name ++ ": " ++ m
             | Except.ok tr => toolResultBlock tc.name tc.args tr.serialized)⟩) := by
  induction B with
  | nil => rfl
  | cons tc rest ih =>
    have h1 := execToolCall_fst_str tools ⟨tc.name, tc.args⟩ (hnf tc (by simp))
    simp only [batchEntries, List.map_cons] at ih ⊢
    simp only [entryMessages, List.filterMap_cons] at ih ⊢
    rw [h1]
    simp only []
    rw [ih (fun x hx => hnf x (by simp [hx]))]

/-- C3 (amended): exceeding the bound without finalizing yields the Failed
max-iterations outcome; chain mode force-finalizes with success instead only
when the final iteration's response carries no tool-call requests — when it
carries (non-finish) tool calls under auto-execution, chain mode also returns
the max-iterations failure. -/
theorem claim_c3 :
    (∀ (cfg : Config) (tools : List ToolDefinition) (env : Env) (maxI iter : Nat)
       (msgs : List Message) (trace : List Event),
       (runLoop cfg tools env maxI 0 iter msgs trace).1
         = { success := false, output := Output.text ""
           , error := some "Max iterations reached" })
    ∧ (∀ (cfg : Config) (tools : List ToolDefinition) (env : Env) (maxI iter : Nat)
         (msgs : List Message) (trace : List Event) (c : String),
         cfg.chainRun = true → (iter == maxI) = true →
         env.oracle (iter - 1) = ModelResponse.msg c [] →
         (runLoop cfg tools env maxI 1 iter msgs trace).1
           = { success := true, output := Output.text (trimStr c) })
    ∧ (∀ (cfg : Config) (tools : List ToolDefinition) (env : Env) (maxI iter : Nat)
         (msgs : List Message) (trace : List Event) (c : String) (B : List ToolCallReq),
         cfg.chainRun = true → cfg.autoExec = true → B ≠ [] →
         (∀ tc ∈ B, tc.name ≠ "finish_run") →
         env.oracle (iter - 1) = ModelResponse.msg c B →
         (runLoop cfg tools env maxI 1 iter msgs trace).1
           = { success := false, output := Output.text ""
             , error := some "Max iterations reached" }) := by
  refine ⟨fun cfg tools env maxI iter msgs trace => rfl, ?_, ?_⟩
  · intro cfg tools env maxI iter msgs trace c hchain hlast hor
    rw [runLoop_succ_done _ _ _ _ 0 _ _ _ _ _ _
          (runIteration_noCalls_last cfg tools env maxI iter _ _ c hchain hlast hor)]
  · intro cfg tools env maxI iter msgs trace c B hchain hauto hne hnf hor
    rw [runLoop_succ_next _ _ _ _ 0 _ _ _ _ _
          (runIteration_batch_next cfg tools env maxI iter _ _ c B hauto hne
            (find_isFinish_none tools B hnf) hor)]
    rfl

/-- Counterexample to C3 as stated: a chain-mode run whose model keeps
requesting an ordinary tool reaches the bound and returns the max-iterations
failure instead of force-finalizing with success. -/
theorem claim_c3_counterexample :
    (construct envChainTool true cfgChainTool).map (fun a => (run a envChainTool none []).1)
        = Except.ok { success := false, output := Output.text ""
                    , error := some "Max iterations reached" }
    ∧ cfgChainTool.chainRun = true := ⟨rfl, rfl⟩

/-- Witness for C3 at concrete loop states. -/
theorem claim_c3_witness :
    (runLoop cfgPlain [] envPlain 5 0 6 [] []).1
      = { success := false, output := Output.text ""
        , error := some "Max iterations reached" }
    ∧ (runLoop cfgChain3 [] envHello 3 1 3 [⟨Role.system, MsgContent.str ""⟩] []).1
      = { success := true, output := Output.text (trimStr "hello") }
    ∧ (runLoop cfgChainTool [toolT] envChainTool 3 1 3 [⟨Role.system, MsgContent.str ""⟩] []).1
      = { success := false, output := Output.text ""
        , error := some "Max iterations reached" } :=
  ⟨claim_c3.1 cfgPlain [] envPlain 5 6 [] [],
   claim_c3.2.1 cfgChain3 [] envHello 3 3 [⟨Role.system, MsgContent.str ""⟩] [] "hello"
     rfl rfl rfl,
   claim_c3.2.2 cfgChainTool [toolT] envChainTool 3 3 [⟨Role.system, MsgContent.str ""⟩] []
     "c" [⟨"t", "x"⟩] rfl rfl (by decide) (by decide) rfl⟩

/-- C4 (amended): under auto-execution, each requested call in a batch with no
finish_run yields exactly one transcript turn appended in request order: the
block identifying the tool, its arguments and its serialized result when the
tool exists and returns normally, the bare not-found string when it does not
exist, and the bare error string when its invocation raises. -/
theorem claim_c4 (cfg : Config) (tools : List ToolDefinition) (env : Env)
    (maxI iter : Nat) (msgs : List Message) (trace : List Event) (c : String)
    (B : List ToolCallReq)
    (hauto : cfg.autoExec = true) (hne : B ≠ [])
    (hnf : ∀ tc ∈ B, tc.name ≠ "finish_run")
    (hor : env.oracle (iter - 1) = ModelResponse.msg c B) :
    runIteration cfg tools env maxI iter msgs trace
      = IterOut.next
          (addAssistantMessage (setSystemContent msgs (buildSystemPrompt cfg iter)) c
            ++ B.map (fun tc => ⟨Role.user, MsgContent.str
                (match tools.find? (fun t => t.name == tc.name) with
                 | none => "Tool " ++ tc.name ++ " not found"
                 | some td =>
                   match td.execute tc.args with
                   | Except.error m => "Error in tool " ++ tc.name ++ ": " ++ m
                   | Except.ok tr => toolResultBlock tc.name tc.args tr.serialized)⟩))
          (trace ++ Event.modelCall (callParamsOf cfg tools maxI iter msgs)
            :: batchEvents tools B) := by
  rw [runIteration_batch_next cfg tools env maxI iter msgs trace c B hauto hne
        (find_isFinish_none tools B hnf) hor]
  rw [entryMessages_of_no_finish tools B hnf]

/-- Counterexample to C4 as stated: the transcript turn for a call whose tool
is not registered is the bare not-found string, not a block identifying the
arguments and result. -/
theorem claim_c4_counterexample :
    (construct envNotFound true cfgToolOnly).map
        (fun a => (run a envNotFound none []).2.1[2]?)
      = Except.ok (some ⟨Role.user, MsgContent.str "Tool nosuch not found"⟩)
    ∧ hasSubstring "Tool nosuch not found" "[ SYSTEM ]" = false
    ∧ hasSubstring "Tool nosuch not found" "PARAMETERS" = false
    ∧ hasSubstring "Tool nosuch not found" "argval" = false := by
  refine ⟨rfl, ?_, ?_, ?_⟩ <;> decide

/-- Witness for C4 at a concrete mixed batch. -/
theorem claim_c4_witness :
    runIteration cfgMixed [toolT, toolBad] envMixed 5 1 [⟨Role.system, MsgContent.str ""⟩] []
      = IterOut.next
          (addAssistantMessage (setSystemContent [⟨Role.system, MsgContent.str ""⟩]
              (buildSystemPrompt cfgMixed 1)) "c"
            ++ ([⟨"t", "x"⟩, ⟨"bad", "y"⟩] : List ToolCallReq).map
                (fun tc => ⟨Role.user, MsgContent.str
                (match [toolT, toolBad].find? (fun t => t.name == tc.name) with
                 | none => "Tool " ++ tc.name ++ " not found"
                 | some td =>
                   match td.execute tc.args with
                   | Except.error m => "Error in tool " ++ tc.name ++ ": " ++ m
                   | Except.ok tr => toolResultBlock tc.name tc.args tr.serialized)⟩))
          ([] ++ Event.modelCall (callParamsOf cfgMixed [toolT, toolBad] 5 1
              [⟨Role.system, MsgContent.str ""⟩])
            :: batchEvents [toolT, toolBad] [⟨"t", "x"⟩, ⟨"bad", "y"⟩]) :=
  claim_c4 cfgMixed [toolT, toolBad] envMixed 5 1 [⟨Role.system, MsgContent.str ""⟩] [] "c"
    [⟨"t", "x"⟩, ⟨"bad", "y"⟩] rfl (by decide) (by decide) rfl


theorem modelCalls_batchEvents (tools : List ToolDefinition) (B : List ToolCallReq) :
    modelCalls (batchEvents tools B) = [] := by
  unfold batchEvents
  exact modelCalls_batch tools (B.map (fun tc => (⟨tc.name, tc.args⟩ : FunctionCall)))

/-- C5 (amended): for a batch of two or more requested calls where at least
one tool raises and at least one succeeds (and none is finish_run), under
auto-execution every call yields its own captured result — one user-role
transcript turn per call, appended in request order, with no exception
escaping — and, provided iterations remain beyond the current one, the loop
proceeds to a further model call. -/
theorem claim_c5 (cfg : Config) (tools : List ToolDefinition) (env : Env)
    (maxI fuel iter : Nat) (m : Message) (rest : List Message) (trace : List Event)
    (c : String) (B : List ToolCallReq)
    (hauto : cfg.autoExec = true)
    (hlen : 2 ≤ B.length)
    (hmix1 : ∃ tc ∈ B, toolRaises tools tc)
    (hmix2 : ∃ tc ∈ B, toolSucceeds tools tc)
    (hnf : ∀ tc ∈ B, tc.name ≠ "finish_run")
    (hor : env.oracle (iter - 1) = ModelResponse.msg c B) :
    (entryMessages (batchEntries tools B)).length = B.length
    ∧ (∀ x ∈ entryMessages (batchEntries tools B), x.role = Role.user)
    ∧ (∃ capp app,
        (runLoop cfg tools env maxI (fuel + 2) iter (m :: rest) trace).2.1
          = Message.mk m.role capp
              :: ((rest ++ (⟨Role.assistant, MsgContent.str c⟩
                    :: entryMessages (batchEntries tools B))) ++ app)
        ∧ ∀ x ∈ app, x.role ≠ Role.system)
    ∧ (modelCalls trace).length + 2
        ≤ (modelCalls (runLoop cfg tools env maxI (fuel + 2) iter (m :: rest) trace).2.2).length := by
  have hne : B ≠ [] := by
    intro h
    subst h
    simp at hlen
  have hstep := runLoop_succ_next cfg tools env maxI (fuel + 1) iter (m :: rest) trace _ _
    (runIteration_batch_next cfg tools env maxI iter (m :: rest) trace c B hauto hne
      (find_isFinish_none tools B hnf) hor)
  refine ⟨?_, entryMessages_role _, ?_, ?_⟩
  · rw [entryMessages_of_no_finish tools B hnf]
    simp
  · rw [hstep]
    have hmsgs : addAssistantMessage (setSystemContent (m :: rest) (buildSystemPrompt cfg iter)) c
          ++ entryMessages (batchEntries tools B)
        = Message.mk m.role (MsgContent.str (buildSystemPrompt cfg iter))
            :: (rest ++ (⟨Role.assistant, MsgContent.str c⟩
                  :: entryMessages (batchEntries tools B))) := by
      simp [addAssistantMessage, setSystemContent_cons]
    rw [hmsgs]
    obtain ⟨capp, app, hout, hroles⟩ := runLoop_msgs cfg tools env maxI (fuel + 1) (iter + 1)
      (Message.mk m.role (MsgContent.str (buildSystemPrompt cfg iter)))
      (rest ++ (⟨Role.assistant, MsgContent.str c⟩ :: entryMessages (batchEntries tools B)))
      (trace ++ Event.modelCall (callParamsOf cfg tools maxI iter (m :: rest))
        :: batchEvents tools B)
    exact ⟨capp, app, hout, hroles⟩
  · rw [hstep]
    have hge := runLoop_modelCalls_ge_one cfg tools env maxI (fuel + 1) (iter + 1)
      (addAssistantMessage (setSystemContent (m :: rest) (buildSystemPrompt cfg iter)) c
        ++ entryMessages (batchEntries tools B))
      (trace ++ Event.modelCall (callParamsOf cfg tools maxI iter (m :: rest))
        :: batchEvents tools B) (by omega)
    have htr : (modelCalls (trace ++ Event.modelCall (callParamsOf cfg tools maxI iter (m :: rest))
        :: batchEvents tools B)).length = (modelCalls trace).length + 1 := by
      rw [modelCalls_append]
      have : modelCalls (Event.modelCall (callParamsOf cfg tools maxI iter (m :: rest))
          :: batchEvents tools B)
          = callParamsOf cfg tools maxI iter (m :: rest) :: modelCalls (batchEvents tools B) := by
        simp [modelCalls, List.filterMap_cons]
      rw [this, modelCalls_batchEvents]
      simp
    rw [htr] at hge
    omega

/-- Counterexample to C5 as stated: with the default bound of 5 and a mixed
success-and-raise batch on every turn, the 5th batch's results are still
appended but the loop terminates with the max-iterations failure instead of
proceeding to a further model call. -/
theorem claim_c5_counterexample :
    (run agentMixed envMixed none []).1
      = { success := false, output := Output.text ""
        , error := some "Max iterations reached" }
    ∧ (modelCalls (run agentMixed envMixed none []).2.2).length = 5
    ∧ (toolInvocations (run agentMixed envMixed none []).2.2).length = 10 := by
  refine ⟨rfl, rfl, rfl⟩

/-- Witness for C5 at a concrete mixed batch. -/
theorem claim_c5_witness :
    (entryMessages (batchEntries [toolT, toolBad] [⟨"t", "x"⟩, ⟨"bad", "y"⟩])).length = 2
    ∧ 2 ≤ (modelCalls (runLoop cfgMixed [toolT, toolBad] envMixed 5 5 1
          [⟨Role.system, MsgContent.str ""⟩] []).2.2).length := by
  have h := claim_c5 cfgMixed [toolT, toolBad] envMixed 5 3 1
    ⟨Role.system, MsgContent.str ""⟩ [] [] "c" [⟨"t", "x"⟩, ⟨"bad", "y"⟩]
    rfl (by decide)
    ⟨⟨"bad", "y"⟩, by decide, toolBad, "boom", rfl, rfl⟩
    ⟨⟨"t", "x"⟩, by decide, toolT, { resultField := some "r", serialized := "\"r\"" }, rfl, rfl⟩
    (by decide) rfl
  refine ⟨h.1, ?_⟩
  have h4 := h.2.2.2
  simpa using h4

/-- C6 (confirmed): when autoExecuteTools is false and the model response
carries tool-call requests, run returns immediately (one model call) with a
success outcome whose functionCalls field holds every requested call with its
name and arguments, no tool's execute capability is invoked, and the output
is the cognition-extracted speak text when cognition is on (falling back to
the trimmed raw content) and the trimmed raw content otherwise.  The bound
positivity hypothesis states that a first model call happens at all. -/
theorem claim_c6 (agent : Agent) (env : Env) (ui : Option String) (imgs : List String)
    (c : String) (B : List ToolCallReq)
    (hauto : agent.config.autoExecuteTools = some false)
    (hpos : 0 < runBound agent.config)
    (hne : B ≠ [])
    (hor : env.oracle 0 = ModelResponse.msg c B) :
    (run agent env ui imgs).1
      = { success := true
        , output := Output.text (if agent.config.cognition then
              (match speakOf c with
               | some sp => trimStr sp
               | none => trimStr c)
            else trimStr c)
        , functionCalls := some (B.map (fun tc => ⟨tc.name, tc.args⟩)) }
    ∧ toolInvocations (run agent env ui imgs).2.2 = []
    ∧ (modelCalls (run agent env ui imgs).2.2).length = 1 := by
  have hauto' : agent.config.autoExec = false := by
    unfold Config.autoExec
    rw [hauto]
    rfl
  obtain ⟨n, hb⟩ : ∃ n, runBound agent.config = n + 1 := ⟨runBound agent.config - 1, by omega⟩
  unfold run
  rw [hb]
  rw [runLoop_succ_done _ _ _ _ n 1 _ _ _ _ _
        (runIteration_pending agent.config agent.tools env (n+1) 1 _ _ c B hauto' hne hor)]
  refine ⟨?_, rfl, rfl⟩
  simp [finalOutputOf]

/-- Witness for C6: cognition on, a speak segment present, one tool requested. -/
theorem claim_c6_witness :
    (run agentPending envPending none []).1
      = { success := true, output := Output.text "hi"
        , functionCalls := some [⟨"t", "z"⟩] }
    ∧ toolInvocations (run agentPending envPending none []).2.2 = [] := by
  have h := claim_c6 agentPending envPending none [] "<speak> hi </speak>" [⟨"t", "z"⟩]
    rfl (by decide) (by decide) rfl
  refine ⟨?_, h.2.1⟩
  rw [h.1]
  decide

/-- C7 (amended): in structured-output mode with chain-completion mode
inactive, for a model response with no tool calls, if the trimmed content
parses as JSON the run returns success with the parsed value as output, and
if parsing fails the run still returns success with the trimmed raw string
as output — the parse failure is never surfaced. -/
theorem claim_c7 (agent : Agent) (env : Env) (ui : Option String) (imgs : List String)
    (c : String) (sch : StructuredSchema)
    (hchain : agent.config.chainRun = false)
    (hsch : agent.config.structuredOutputSchema = some sch)
    (hcog : agent.config.cognition = false)
    (hor : env.oracle 0 = ModelResponse.msg c []) :
    (∀ j, env.jsonParse (trimStr c) = some j →
        (run agent env ui imgs).1 = { success := true, output := Output.parsed j })
    ∧ (env.jsonParse (trimStr c) = none →
        (run agent env ui imgs).1 = { success := true, output := Output.text (trimStr c) }) := by
  have hfo : finalOutputOf agent.config c = trimStr c := by
    simp [finalOutputOf, hcog]
  have hpos : 0 < runBound agent.config := by
    unfold runBound
    simp only [hchain, if_false]
    by_cases h : agent.config.forceTool <;> simp [h]
  obtain ⟨n, hb⟩ : ∃ n, runBound agent.config = n + 1 := ⟨runBound agent.config - 1, by omega⟩
  constructor
  · intro j hj
    unfold run
    rw [hb]
    rw [runLoop_succ_done _ _ _ _ n 1 _ _ _ _ _
          (runIteration_finalize_parsed agent.config agent.tools env (n+1) 1 _ _ c sch j
            hchain hsch (by rw [hfo]; exact hj) hor)]
  · intro hj
    unfold run
    rw [hb]
    rw [runLoop_succ_done _ _ _ _ n 1 _ _ _ _ _
          (runIteration_finalize_fallback agent.config agent.tools env (n+1) 1 _ _ c sch
            hchain hsch (by rw [hfo]; exact hj) hor)]
    rw [hfo]

/-- Counterexample to C7 as stated: with chain mode also enabled (bound 1),
a response whose trimmed content parses as JSON is force-finalized as the
trimmed raw string, not the parsed value. -/
theorem claim_c7_counterexample :
    (construct envStruct true cfgStructChain).map (fun a => (run a envStruct none []).1)
      = Except.ok { success := true, output := Output.text "\x7b\x7d" }
    ∧ envStruct.jsonParse (trimStr " \x7b\x7d ") = some ⟨"OBJ"⟩
    ∧ Output.text "\x7b\x7d" ≠ Output.parsed ⟨"OBJ"⟩ := by
  refine ⟨rfl, by decide, by decide⟩

/-- Witness for C7: the parsed case at one endpoint and the fallback case at
another. -/
theorem claim_c7_witness :
    (run agentStruct envStruct none []).1
      = { success := true, output := Output.parsed ⟨"OBJ"⟩ }
    ∧ (run agentStruct envHello none []).1
      = { success := true, output := Output.text "hello" } := by
  have h1 := (claim_c7 agentStruct envStruct none [] " \x7b\x7d " ⟨"p", "r", "e"⟩
    rfl rfl rfl rfl).1 ⟨"OBJ"⟩ (by decide)
  have h2 := (claim_c7 agentStruct envHello none [] "hello" ⟨"p", "r", "e"⟩
    rfl rfl rfl rfl).2 (by decide)
  refine ⟨h1, ?_⟩
  rw [h2]
  decide


/-- C8 (amended): with the required API key present, construction rejects a
configuration exactly when cognition and structured-output are both enabled,
or force-single-tool is combined with chain mode, or force-single-tool is
enabled with a registered tool count different from one; every other
configuration constructs successfully. -/
theorem claim_c8 (env : Env) (cfg : Config) :
    (∃ a, construct env true cfg = Except.ok a)
      ↔ ¬((cfg.cognition = true ∧ cfg.structuredOutputSchema.isSome = true)
          ∨ (cfg.forceTool = true ∧ cfg.chainRun = true)
          ∨ (cfg.forceTool = true ∧ cfg.tools.length ≠ 1)) := by
  unfold construct
  by_cases h1 : (cfg.cognition && cfg.structuredOutputSchema.isSome) = true
  · rw [if_pos h1]
    simp at h1
    simp [h1]
  · rw [if_neg h1]
    by_cases h2 : (cfg.forceTool && cfg.chainRun) = true
    · rw [if_pos h2]
      simp at h2
      simp [h2]
    · rw [if_neg h2]
      by_cases h3 : (cfg.forceTool && cfg.tools.length != 1) = true
      · rw [if_pos h3]
        simp at h3
        simp [h3]
      · rw [if_neg h3]
        simp only [Bool.not_eq_true, Bool.and_eq_true, not_and, Bool.not_eq_true] at h1 h2 h3
        simp only [Bool.not_true, if_neg]
        constructor
        · intro _
          simp at h1 h2 h3
          intro hc
          rcases hc with ⟨ha, hb⟩ | ⟨ha, hb⟩ | ⟨ha, hb⟩
          · rw [h1 ha] at hb
            exact absurd hb (by simp)
          · rw [h2 ha] at hb
            exact absurd hb (by simp)
          · exact hb (h3 ha)
        · intro _
          exact ⟨_, rfl⟩

/-- Counterexample to C8 as stated: a configuration violating neither of the
claim's two rejection conditions — force-single-tool with exactly one tool,
no cognition, no structured schema — is still rejected when chain mode is
also enabled. -/
theorem claim_c8_counterexample :
    construct envPlain true cfgForceChain
        = Except.error "Cannot enable chainRun when forceTool is true."
    ∧ ¬(cfgForceChain.cognition = true ∧ cfgForceChain.structuredOutputSchema.isSome = true)
    ∧ ¬(cfgForceChain.forceTool = true ∧ cfgForceChain.tools.length ≠ 1) := by
  refine ⟨rfl, by decide, by decide⟩

/-- Witness for C8: an ordinary configuration constructs successfully. -/
theorem claim_c8_witness : ∃ a, construct envPlain true cfgPlain = Except.ok a :=
  (claim_c8 envPlain cfgPlain).mpr (by decide)

theorem construct_messages (env : Env) (k : Bool) (cfg : Config) (a : Agent)
    (h : construct env k cfg = Except.ok a) :
    a.messages = [⟨Role.system, MsgContent.str ""⟩] := by
  unfold construct at h
  split at h
  · simp at h
  · split at h
    · simp at h
    · split at h
      · simp at h
      · split at h
        · simp at h
        · simp at h
          rw [← h]

theorem SysInv_append (msgs : List Message) (x : Message)
    (h : SysInv msgs) (hx : x.role ≠ Role.system) : SysInv (msgs ++ [x]) := by
  obtain ⟨h1, h2⟩ := h
  cases msgs with
  | nil => simp at h1
  | cons m rest =>
    simp only [List.head?_cons, Option.map_some] at h1
    refine ⟨by simpa using h1, ?_⟩
    intro y hy
    simp only [List.cons_append, List.tail_cons] at hy
    rcases List.mem_append.mp hy with hmem | hmem
    · exact h2 y (by simpa using hmem)
    · simp at hmem
      subst hmem
      exact hx

theorem runInputMsgs_cons (a : Agent) (ui : Option String) (imgs : List String)
    (m : Message) (rest : List Message) (h : a.messages = m :: rest) :
    ∃ app0, runInputMsgs a ui imgs = m :: (rest ++ app0)
      ∧ ∀ x ∈ app0, x.role ≠ Role.system := by
  unfold runInputMsgs
  cases ui with
  | none => exact ⟨[], by simp [h], by simp⟩
  | some input =>
    by_cases hi : input = ""
    · refine ⟨[], ?_, by simp⟩
      simp [hi, h]
    · refine ⟨[⟨Role.user, MsgContent.parts
        (ContentPart.text input :: imgs.map (fun u => ContentPart.imageUrl u))⟩], ?_, ?_⟩
      · simp [hi, h, addUserMessage]
      · simp

theorem run_messages_struct (a : Agent) (env' : Env) (ui : Option String) (imgs : List String)
    (m : Message) (rest : List Message) (h : a.messages = m :: rest) :
    ∃ c app, (run a env' ui imgs).2.1 = Message.mk m.role c :: (rest ++ app)
      ∧ ∀ x ∈ app, x.role ≠ Role.system := by
  unfold run
  obtain ⟨app0, hin, h0⟩ := runInputMsgs_cons a ui imgs m rest h
  rw [hin]
  obtain ⟨c, app1, hout, h1⟩ := runLoop_msgs a.config a.tools env' (runBound a.config)
    (runBound a.config) 1 m (rest ++ app0) []
  refine ⟨c, app0 ++ app1, ?_, ?_⟩
  · rw [hout]
    simp
  · intro x hx
    rcases List.mem_append.mp hx with hx | hx
    · exact h0 x hx
    · exact h1 x hx

theorem run_snapshots (a : Agent) (env' : Env) (ui : Option String) (imgs : List String)
    (m : Message) (rest : List Message) (h : a.messages = m :: rest)
    (hm : m.role = Role.system) (hrest : ∀ x ∈ rest, x.role ≠ Role.system) :
    ∀ p ∈ modelCalls (run a env' ui imgs).2.2,
      ∃ i hd tl, p.messages = hd :: tl ∧ hd.role = Role.system
        ∧ hd.content = MsgContent.str (buildSystemPrompt a.config i)
        ∧ ∀ x ∈ tl, x.role ≠ Role.system := by
  unfold run
  obtain ⟨app0, hin, h0⟩ := runInputMsgs_cons a ui imgs m rest h
  rw [hin]
  intro p hp
  have hall : ∀ x ∈ rest ++ app0, x.role ≠ Role.system := by
    intro x hx
    rcases List.mem_append.mp hx with hx | hx
    · exact hrest x hx
    · exact h0 x hx
  have := runLoop_snapshots a.config a.tools env' (runBound a.config) (runBound a.config) 1
    m (rest ++ app0) [] hm hall p hp
  rcases this with hin' | hr
  · simp [modelCalls] at hin'
  · exact hr

/-- C9 (confirmed): in every reachable conversation state, index 0 of the
Message Store has role system and no later turn has role system; run rewrites
the system slot's content in place before every model call — the message
snapshot of every recorded call starts with a system turn carrying a built
prompt and contains no other system turn — and every other mutation (user
injection, assistant injection, and everything run appends) appends new
non-system turns at the end without touching existing entries. -/
theorem claim_c9 (env : Env) (cfg : Config) :
    (∀ a, Reachable env cfg a → SysInv a.messages)
    ∧ (∀ (a : Agent) (env' : Env) (ui : Option String) (imgs : List String)
         (m : Message) (rest : List Message), a.messages = m :: rest →
         m.role = Role.system → (∀ x ∈ rest, x.role ≠ Role.system) →
         (∀ p ∈ modelCalls (run a env' ui imgs).2.2,
            ∃ i hd tl, p.messages = hd :: tl ∧ hd.role = Role.system
              ∧ hd.content = MsgContent.str (buildSystemPrompt a.config i)
              ∧ ∀ x ∈ tl, x.role ≠ Role.system)
         ∧ (∃ c app, (run a env' ui imgs).2.1 = Message.mk m.role c :: (rest ++ app)
              ∧ ∀ x ∈ app, x.role ≠ Role.system))
    ∧ (∀ (msgs : List Message) (content : String) (imgs : List String),
         addUserMessage msgs content imgs
           = msgs ++ [⟨Role.user, MsgContent.parts
               (ContentPart.text content :: imgs.map (fun u => ContentPart.imageUrl u))⟩]
         ∧ addAssistantMessage msgs content
           = msgs ++ [⟨Role.assistant, MsgContent.str content⟩]) := by
  refine ⟨?_, ?_, fun msgs content imgs => ⟨rfl, rfl⟩⟩
  · intro a hr
    induction hr with
    | base a h =>
      rw [construct_messages env true cfg a h]
      refine ⟨rfl, ?_⟩
      simp
    | user a content imgs hr ih =>
      exact SysInv_append _ _ ih (by simp)
    | assistant a content hr ih =>
      exact SysInv_append _ _ ih (by simp)
    | runStep a env' ui imgs hr ih =>
      obtain ⟨h1, h2⟩ := ih
      cases hms : a.messages with
      | nil => rw [hms] at h1; simp at h1
      | cons m rest =>
        rw [hms] at h1 h2
        simp only [List.head?_cons, Option.map_some] at h1
        obtain ⟨c, app, hout, happ⟩ := run_messages_struct a env' ui imgs m rest hms
        show SysInv (run a env' ui imgs).2.1
        rw [hout]
        refine ⟨by simpa using h1, ?_⟩
        intro x hx
        simp only [List.tail_cons] at hx
        rcases List.mem_append.mp hx with hx | hx
        · exact h2 x (by simpa using hx)
        · exact happ x hx
  · intro a env' ui imgs m rest h hm hrest
    exact ⟨run_snapshots a env' ui imgs m rest h hm hrest,
           run_messages_struct a env' ui imgs m rest h⟩

/-- Witness for C9: the freshly constructed agent satisfies the invariant and
the injections are plain appends. -/
theorem claim_c9_witness :
    SysInv agentPlain.messages
    ∧ addUserMessage [] "u" [] = [⟨Role.user, MsgContent.parts [ContentPart.text "u"]⟩] := by
  refine ⟨(claim_c9 envPlain cfgPlain).1 agentPlain (Reachable.base agentPlain rfl), ?_⟩
  have h := ((claim_c9 envPlain cfgPlain).2.2 [] "u" []).1
  simpa using h


theorem execToolCall_snd_found (tools : List ToolDefinition) (fc : FunctionCall)
    (td : ToolDefinition)
    (h : tools.find? (fun t => t.name == fc.functionName) = some td) :
    (execToolCall tools fc).2 = [Event.toolExec fc.functionName fc.functionArgs] := by
  unfold execToolCall
  rw [h]
  split
  · rename_i heq
    simp at heq
  · split
    · rfl
    · split <;> rfl

theorem toolInvocations_append (a b : List Event) :
    toolInvocations (a ++ b) = toolInvocations a ++ toolInvocations b := by
  simp [toolInvocations]

theorem toolInvocations_batchEvents (tools : List ToolDefinition) (B : List ToolCallReq)
    (hall : ∀ tc ∈ B, (tools.find? (fun t => t.name == tc.name)).isSome = true) :
    toolInvocations (batchEvents tools B) = B.map (fun tc => (tc.name, tc.args)) := by
  induction B with
  | nil => rfl
  | cons tc rest ih =>
    obtain ⟨td, htd⟩ := Option.isSome_iff_exists.mp (hall tc (by simp))
    have hbe : batchEvents tools (tc :: rest)
        = (execToolCall tools ⟨tc.name, tc.args⟩).2 ++ batchEvents tools rest := by
      simp [batchEvents]
    rw [hbe, toolInvocations_append,
        execToolCall_snd_found tools ⟨tc.name, tc.args⟩ td htd,
        ih (fun x hx => hall x (by simp [hx]))]
    rfl

/-- C10 (confirmed): in auto-execution mode, when a batch contains finish_run
together with other calls, every call in the batch is executed — one execute
invocation per requested call — but only the finish_run execution block is
appended to the Message Store before run returns with the finish result as
output; the other calls' results never appear in the conversation history. -/
theorem claim_c10 (agent : Agent) (env : Env) (ui : Option String) (imgs : List String)
    (c : String) (B : List ToolCallReq) (ft : String)
    (hauto : agent.config.autoExec = true)
    (hpos : 0 < runBound agent.config)
    (hne : B ≠ [])
    (hfind : (batchEntries agent.tools B).find? (fun r => r.isFinish)
        = some (ExecEntry.finish ft))
    (hall : ∀ tc ∈ B, (agent.tools.find? (fun t => t.name == tc.name)).isSome = true)
    (hor : env.oracle 0 = ModelResponse.msg c B) :
    (run agent env ui imgs).1 = { success := true, output := Output.text ft }
    ∧ (run agent env ui imgs).2.1
        = addAssistantMessage (setSystemContent (runInputMsgs agent ui imgs)
            (buildSystemPrompt agent.config 1)) c
          ++ [⟨Role.user, MsgContent.str (finishRunMessage ft)⟩]
    ∧ toolInvocations (run agent env ui imgs).2.2 = B.map (fun tc => (tc.name, tc.args)) := by
  obtain ⟨n, hb⟩ : ∃ n, runBound agent.config = n + 1 := ⟨runBound agent.config - 1, by omega⟩
  unfold run
  rw [hb]
  rw [runLoop_succ_done _ _ _ _ n 1 _ _ _ _ _
        (runIteration_batch_finish agent.config agent.tools env (n+1) 1 _ _ c B ft
          hauto hne hfind hor)]
  refine ⟨rfl, rfl, ?_⟩
  show toolInvocations ([] ++ Event.modelCall _ :: batchEvents agent.tools B) = _
  have h1 : toolInvocations ([] ++ Event.modelCall
        (callParamsOf agent.config agent.tools (n+1) 1 (runInputMsgs agent ui imgs))
        :: batchEvents agent.tools B)
      = toolInvocations (batchEvents agent.tools B) := by
    simp [toolInvocations, List.filterMap_cons]
  rw [h1, toolInvocations_batchEvents agent.tools B hall]

/-- Witness for C10: a batch requesting an ordinary tool and finish_run. -/
theorem claim_c10_witness :
    (run agentFinish envFinish none []).1 = { success := true, output := Output.text "args" }
    ∧ toolInvocations (run agentFinish envFinish none []).2.2
        = [("t", "a"), ("finish_run", "args")] := by
  have h := claim_c10 agentFinish envFinish none [] "c"
    [⟨"t", "a"⟩, ⟨"finish_run", "args"⟩] "args" rfl (by decide) (by decide) rfl
    (by decide) rfl
  refine ⟨h.1, ?_⟩
  rw [h.2.2]
  rfl

end Feather
